import Mathlib

/-!
Verification of the sharded visit-counter service.

This file embeds the counting core of the repository in Lean 4:
the MD5-based consistent-hash ring (app/core/consistent_hash.py),
the shard manager with health-aware routing and retry
(app/core/redis_manager.py), and the counter service with its read
cache, coalescing write buffer and flush protocol
(app/services/visit_counter.py).  Python dictionaries are embedded as
association lists that keep insertion order and unique keys; Python
exceptions are embedded as an explicit error type; the shard clients
are embedded as explicit behaviour parameters.
-/

set_option maxRecDepth 10000

namespace VisitCounter

/-! ## Python dictionaries as association lists -/

/-- Membership test of a key in a dictionary, as in the Python
expression testing whether a key is in a dict. -/
def dmem {α : Type} [DecidableEq α] {β : Type} (l : List (α × β)) (k : α) : Bool :=
  l.any (fun p => p.1 = k)

/-- Lookup of a key, returning the stored value when present. -/
def dget? {α : Type} [DecidableEq α] {β : Type} (l : List (α × β)) (k : α) : Option β :=
  (l.find? (fun p => p.1 = k)).map (fun p => p.2)

/-- Lookup with a default, as in the Python dict get method with a
default argument. -/
def dgetD {α : Type} [DecidableEq α] {β : Type} (l : List (α × β)) (k : α) (d : β) : β :=
  (dget? l k).getD d

/-- Assignment of a value to a key: replace the value at the (unique)
occurrence of the key when present, otherwise append the new pair at
the end.  This is exactly the insertion-order behaviour of a Python
dict assignment; the embedded states only ever hold each key once. -/
def dset {α : Type} [DecidableEq α] {β : Type} : List (α × β) → α → β → List (α × β)
  | [], k, v => [(k, v)]
  | (k0, v0) :: t, k, v =>
    if k0 = k then (k, v) :: t else (k0, v0) :: dset t k v

/-- Removal of a key, as in the Python dict pop with a default (no
error when the key is absent). -/
def dpop {α : Type} [DecidableEq α] {β : Type} (l : List (α × β)) (k : α) : List (α × β) :=
  l.filter (fun p => ¬ p.1 = k)

/-! ## MD5

The ring hashes with the Python expression
int(hashlib.md5(key.encode()).hexdigest(), 16): the MD5 digest of the
UTF-8 bytes of the label, read as a big-endian 128-bit integer.  The
implementation below is the RFC 1321 algorithm over Nat with explicit
reduction mod 2^32. -/

/-- The 64 round constants of MD5 (floor of abs(sin(i+1)) scaled by 2^32). -/
def md5K : List Nat :=
  [3614090360, 3905402710, 606105819, 3250441966, 4118548399, 1200080426, 2821735955,
   4249261313, 1770035416, 2336552879, 4294925233, 2304563134, 1804603682, 4254626195,
   2792965006, 1236535329, 4129170786, 3225465664, 643717713, 3921069994, 3593408605,
   38016083, 3634488961, 3889429448, 568446438, 3275163606, 4107603335, 1163531501,
   2850285829, 4243563512, 1735328473, 2368359562, 4294588738, 2272392833, 1839030562,
   4259657740, 2763975236, 1272893353, 4139469664, 3200236656, 681279174, 3936430074,
   3572445317, 76029189, 3654602809, 3873151461, 530742520, 3299628645, 4096336452,
   1126891415, 2878612391, 4237533241, 1700485571, 2399980690, 4293915773, 2240044497,
   1873313359, 4264355552, 2734768916, 1309151649, 4149444226, 3174756917, 718787259,
   3951481745]

/-- The per-round left-rotation amounts of MD5. -/
def md5S : List Nat :=
  [7, 12, 17, 22, 7, 12, 17, 22, 7, 12, 17, 22, 7, 12, 17, 22,
   5, 9, 14, 20, 5, 9, 14, 20, 5, 9, 14, 20, 5, 9, 14, 20,
   4, 11, 16, 23, 4, 11, 16, 23, 4, 11, 16, 23, 4, 11, 16, 23,
   6, 10, 15, 21, 6, 10, 15, 21, 6, 10, 15, 21, 6, 10, 15, 21]

/-- Left rotation of a 32-bit word. -/
def rotl32 (x s : Nat) : Nat :=
  ((x <<< s) ||| (x >>> (32 - s))) % 4294967296

/-- Bitwise complement of a 32-bit word. -/
def not32 (x : Nat) : Nat := x ^^^ 4294967295

/-- The MD5 round function for round i on words b, c, d. -/
def md5F (i b c d : Nat) : Nat :=
  if i < 16 then (b &&& c) ||| (not32 b &&& d)
  else if i < 32 then (d &&& b) ||| (not32 d &&& c)
  else if i < 48 then b ^^^ c ^^^ d
  else c ^^^ (b ||| not32 d)

/-- The message-word index used in round i. -/
def md5G (i : Nat) : Nat :=
  if i < 16 then i
  else if i < 32 then (5 * i + 1) % 16
  else if i < 48 then (3 * i + 5) % 16
  else (7 * i) % 16

/-- One MD5 round: transforms the running state (a, b, c, d). -/
def md5Round (M : List Nat) (st : Nat × Nat × Nat × Nat) (i : Nat) :
    Nat × Nat × Nat × Nat :=
  let a := st.1
  let b := st.2.1
  let c := st.2.2.1
  let d := st.2.2.2
  let f := (md5F i b c d + a + md5K.getD i 0 + M.getD (md5G i) 0) % 4294967296
  (d, (b + rotl32 f (md5S.getD i 0)) % 4294967296, b, c)

/-- Processing of one 64-byte block. -/
def md5ProcessBlock (st : Nat × Nat × Nat × Nat) (block : List Nat) :
    Nat × Nat × Nat × Nat :=
  let M := (List.range 16).map (fun j =>
    block.getD (4 * j) 0 + 256 * block.getD (4 * j + 1) 0 +
    65536 * block.getD (4 * j + 2) 0 + 16777216 * block.getD (4 * j + 3) 0)
  let r := (List.range 64).foldl (md5Round M) st
  ((st.1 + r.1) % 4294967296, (st.2.1 + r.2.1) % 4294967296,
   (st.2.2.1 + r.2.2.1) % 4294967296, (st.2.2.2 + r.2.2.2) % 4294967296)

/-- Little-endian byte decomposition of a number into count bytes. -/
def leBytes (count n : Nat) : List Nat :=
  (List.range count).map (fun i => (n >>> (8 * i)) % 256)

/-- MD5 padding: append the byte 128, zero bytes up to 56 mod 64, then
the bit length as a little-endian 64-bit quantity. -/
def md5Pad (msg : List Nat) : List Nat :=
  let L := msg.length
  let k := (119 - (L % 64)) % 64
  msg ++ [128] ++ List.replicate k 0 ++ leBytes 8 ((8 * L) % 18446744073709551616)

/-- Fold over the padded message in 64-byte blocks.  The fuel argument
is structural and bounds the number of blocks; callers pass the length
of the message, which always suffices. -/
def md5Blocks (st : Nat × Nat × Nat × Nat) : Nat → List Nat → Nat × Nat × Nat × Nat
  | 0, _ => st
  | _, [] => st
  | fuel + 1, a :: t =>
    md5Blocks (md5ProcessBlock st ((a :: t).take 64)) fuel ((a :: t).drop 64)

/-- MD5 digest of a byte sequence, read back as the big-endian integer
value of the 16 digest bytes (the value of int(hexdigest, 16)). -/
def md5Bytes (msg : List Nat) : Nat :=
  let padded := md5Pad msg
  let st := md5Blocks (1732584193, 4023233417, 2562383102, 271733878) padded.length padded
  let digest := leBytes 4 st.1 ++ leBytes 4 st.2.1 ++ leBytes 4 st.2.2.1 ++ leBytes 4 st.2.2.2
  digest.foldl (fun acc b => acc * 256 + b) 0

/-- UTF-8 encoding of one character, as produced by the Python string
encode method. -/
def utf8Bytes (c : Char) : List Nat :=
  let n := c.toNat
  if n < 128 then [n]
  else if n < 2048 then [192 ||| (n >>> 6), 128 ||| (n &&& 63)]
  else if n < 65536 then
    [224 ||| (n >>> 12), 128 ||| ((n >>> 6) &&& 63), 128 ||| (n &&& 63)]
  else
    [240 ||| (n >>> 18), 128 ||| ((n >>> 12) &&& 63),
     128 ||| ((n >>> 6) &&& 63), 128 ||| (n &&& 63)]

/-- The hash function of the ring (ConsistentHash._get_hash): the MD5
of the UTF-8 bytes of the key as a 128-bit integer. -/
def md5Hash (s : String) : Nat :=
  md5Bytes (s.data.flatMap utf8Bytes)

/-! ## Errors

Python exceptions raised by the embedded code. -/

inductive PyErr where
  /-- AttributeError: reading an undeclared field of a pydantic model. -/
  | attributeError
  /-- KeyError: subscripting a dict with an absent key. -/
  | keyError
  /-- IndexError: subscripting a list out of range. -/
  | indexError
  /-- Exception("Hash ring is empty") raised by get_node. -/
  | emptyRing
  /-- ValueError raised by remove_node for an absent node. -/
  | nodeNotFound
  /-- Exception("No healthy Redis nodes available") raised by get_connection. -/
  | noHealthyNodes
  /-- redis.RedisError raised by a shard client call. -/
  | redisError
  /-- Exception("Failed to increment counter") after exhausted retries. -/
  | failedIncrement
  /-- Exception("Failed to get counter value") after exhausted retries. -/
  | failedGet
  /-- Exception("Failed to reset counter") wrapping a client error. -/
  | failedReset
deriving Repr, DecidableEq

instance {ε α : Type} [DecidableEq ε] [DecidableEq α] : DecidableEq (Except ε α)
  | .ok a, .ok b => decidable_of_iff (a = b) (by simp)
  | .ok _, .error _ => .isFalse (by simp)
  | .error _, .ok _ => .isFalse (by simp)
  | .error e, .error f => decidable_of_iff (e = f) (by simp)

/-! ## The consistent-hash ring (app/core/consistent_hash.py)

The ring state mirrors the four attributes of the ConsistentHash
class.  The operations are stated over an arbitrary hash function
(the class method _get_hash, which the source fixes to md5Hash); the
md5-instantiated wrappers below are the source methods themselves. -/

structure ConsistentHash where
  virtual_nodes : Nat
  hash_ring : List (Nat × String)
  sorted_keys : List Nat
  nodes : List String
deriving Repr, DecidableEq

/-- The i-th virtual-node label of a node: node, an underscore, then
the decimal index. -/
def vlabel (node : String) (i : Nat) : String :=
  node ++ "_" ++ toString i

/-- The labels of all virtual nodes of a physical node. -/
def labelsOf (v : Nat) (node : String) : List String :=
  (List.range v).map (vlabel node)

/-- The collision-resolution loop of add_node: while the hash of the
label is already a ring key, extend the label with the collision
suffix and rehash.  The fuel argument bounds the number of iterations
of the while loop; none embeds nontermination. -/
def resolveCollision (hash : String → Nat) (ring : List (Nat × String)) :
    String → Nat → Option Nat
  | _, 0 => none
  | label, fuel + 1 =>
    if dmem ring (hash label) then
      resolveCollision hash ring (label ++ "_collision") fuel
    else some (hash label)

/-- Sorting of the ring keys, as in sorted(self.hash_ring.keys()). -/
def sortKeys (ring : List (Nat × String)) : List Nat :=
  List.insertionSort (· ≤ ·) (ring.map Prod.fst)

/-- The per-index loop body of add_node: for each virtual-node index,
resolve the label to an unused hash and store the node under it. -/
def addVirtualNodes (hash : String → Nat) (node : String) (fuel : Nat) :
    List Nat → List (Nat × String) → Option (List (Nat × String))
  | [], ring => some ring
  | i :: rest, ring =>
    match resolveCollision hash ring (vlabel node i) fuel with
    | none => none
    | some h => addVirtualNodes hash node fuel rest (dset ring h node)

/-- ConsistentHash.add_node with the hash function abstracted: a
present node is ignored; otherwise the node is recorded and one ring
entry per virtual-node index is inserted, then the sorted key list is
recomputed. -/
def addNodeCore (hash : String → Nat) (r : ConsistentHash) (node : String)
    (fuel : Nat) : Option ConsistentHash :=
  if r.nodes.contains node then some r
  else
    match addVirtualNodes hash node fuel (List.range r.virtual_nodes) r.hash_ring with
    | none => none
    | some ring =>
      some { virtual_nodes := r.virtual_nodes, hash_ring := ring,
             sorted_keys := sortKeys ring, nodes := r.nodes ++ [node] }

/-- ConsistentHash.remove_node with the hash function abstracted: an
absent node raises ValueError; otherwise the hashes of the base
virtual-node labels are popped from the ring (note: only the base
labels — a collision-resolved entry is not recomputed) and the sorted
key list is rebuilt. -/
def removeNodeCore (hash : String → Nat) (r : ConsistentHash) (node : String) :
    Except PyErr ConsistentHash :=
  if r.nodes.contains node then
    let keys_to_remove := (labelsOf r.virtual_nodes node).map hash
    let ring := keys_to_remove.foldl (fun rg k => dpop rg k) r.hash_ring
    .ok { virtual_nodes := r.virtual_nodes, hash_ring := ring,
          sorted_keys := sortKeys ring, nodes := r.nodes.erase node }
  else .error .nodeNotFound

/-- The loop of Python bisect.bisect (bisect_right): narrow the window
with the first strictly-greater position as limit.  The fuel argument
bounds the iterations of the while loop; the callers pass enough. -/
def bisectLoop (a : List Nat) (x : Nat) : Nat → Nat → Nat → Nat
  | 0, lo, _ => lo
  | fuel + 1, lo, hi =>
    if lo < hi then
      let mid := (lo + hi) / 2
      if x < a.getD mid 0 then bisectLoop a x fuel lo mid
      else bisectLoop a x fuel (mid + 1) hi
    else lo

/-- Python bisect.bisect(a, x): the insertion point after any entries
equal to x. -/
def pybisect (a : List Nat) (x : Nat) : Nat :=
  bisectLoop a x (a.length + 1) 0 a.length

/-- ConsistentHash.get_node with the hash function abstracted: raise
on an empty ring, otherwise bisect the sorted keys by the key hash,
wrap to index 0 past the end, and return the node stored under the
selected ring key. -/
def getNodeCore (hash : String → Nat) (r : ConsistentHash) (key : String) :
    Except PyErr String :=
  if r.hash_ring.isEmpty then .error .emptyRing
  else
    let key_hash := hash key
    let idx0 := pybisect r.sorted_keys key_hash
    let idx := if idx0 = r.sorted_keys.length then 0 else idx0
    match r.sorted_keys.get? idx with
    | none => .error .indexError
    | some h =>
      match dget? r.hash_ring h with
      | none => .error .keyError
      | some node => .ok node

/-- ConsistentHash.add_node of the source (hash fixed to MD5). -/
def ConsistentHash.add_node (r : ConsistentHash) (node : String) (fuel : Nat) :
    Option ConsistentHash :=
  addNodeCore md5Hash r node fuel

/-- ConsistentHash.remove_node of the source (hash fixed to MD5). -/
def ConsistentHash.remove_node (r : ConsistentHash) (node : String) :
    Except PyErr ConsistentHash :=
  removeNodeCore md5Hash r node

/-- ConsistentHash.get_node of the source (hash fixed to MD5). -/
def ConsistentHash.get_node (r : ConsistentHash) (key : String) :
    Except PyErr String :=
  getNodeCore md5Hash r key

/-- The ConsistentHash constructor with the hash abstracted: start
from the empty ring and add each listed node in order. -/
def initRingCore (hash : String → Nat) (nodes : List String) (virtual_nodes fuel : Nat) :
    Option ConsistentHash :=
  nodes.foldl
    (fun acc node =>
      match acc with
      | none => none
      | some r => addNodeCore hash r node fuel)
    (some { virtual_nodes := virtual_nodes, hash_ring := [], sorted_keys := [],
            nodes := [] })

/-- The ConsistentHash constructor of the source (hash fixed to MD5). -/
def ConsistentHash.init (nodes : List String) (virtual_nodes fuel : Nat) :
    Option ConsistentHash :=
  initRingCore md5Hash nodes virtual_nodes fuel

/-! ## Configuration (app/core/config.py defaults) -/

def REDIS_RETRY_ATTEMPTS : Nat := 3
def VIRTUAL_NODES : Nat := 100
def CACHE_TTL_SECONDS : Nat := 5
def CACHE_CAPACITY : Nat := 1000
def defaultRedisNodes : List String :=
  ["redis://redis1:6379", "redis://redis2:6379", "redis://redis3:6379"]

/-! ## The shard manager (app/core/redis_manager.py)

The per-shard redis clients are abstracted as an explicit behaviour
value: each client call receives the chosen node, the key and the
current client-side state and returns a result (or an exception) and
the successor state.  The redis_clients dict is represented by its key
set, so that subscripting it for a node without a constructed client
raises KeyError as in the source. -/

structure StatefulClient (σ : Type) where
  incr : String → String → Int → σ → Except PyErr Int × σ
  get : String → String → σ → Except PyErr (Option Int) × σ
  del : String → String → σ → Except PyErr Bool × σ

structure RedisManager where
  node_health : List (String × Bool)
  redis_clients : List String
  redis_nodes : List String
  consistent_hash : ConsistentHash
deriving Repr, DecidableEq

/-- The RedisManager constructor: build the ring over the configured
node list, then record one client and an initially-true health bit per
node whose connection construction succeeded (a failed construction
leaves the health bit false and no client). -/
def RedisManager.init (nodes : List String) (virtual_nodes fuel : Nat)
    (connectOk : String → Bool) : Option RedisManager :=
  match ConsistentHash.init nodes virtual_nodes fuel with
  | none => none
  | some ring =>
    some { node_health := nodes.map (fun n => (n, connectOk n)),
           redis_clients := nodes.filter connectOk,
           redis_nodes := nodes,
           consistent_hash := ring }

/-- The unhealthy-shard fallback loop of get_connection: up to
len(redis_nodes) times, reroute by hashing the fallback label of the
current node and stop at the first healthy result; when the loop
completes without a break, raise. -/
def fallbackLoop (m : RedisManager) : String → Nat → Except PyErr String
  | _, 0 => .error .noHealthyNodes
  | node, n + 1 =>
    match m.consistent_hash.get_node ("fallback_" ++ node) with
    | .error e => .error e
    | .ok node2 =>
      match dget? m.node_health node2 with
      | none => .error .keyError
      | some h => if h then .ok node2 else fallbackLoop m node2 n

/-- RedisManager.get_connection: route the key on the ring; when the
routed node is unhealthy run the fallback loop; finally look the
chosen node up in the clients dict and return it. -/
def RedisManager.get_connection (m : RedisManager) (key : String) :
    Except PyErr String :=
  match m.consistent_hash.get_node key with
  | .error e => .error e
  | .ok node =>
    match dget? m.node_health node with
    | none => .error .keyError
    | some h =>
      match (if h then .ok node else fallbackLoop m node m.redis_nodes.length :
              Except PyErr String) with
      | .error e => .error e
      | .ok chosen =>
        if m.redis_clients.contains chosen then .ok chosen
        else .error .keyError

/-- The retry loop of RedisManager.increment: each attempt routes and
calls the client incr; a redis.RedisError on the last attempt becomes
the wrapped failure, any other exception propagates at once. -/
def rmIncrLoop (m : RedisManager) {σ : Type} (B : StatefulClient σ)
    (key : String) (amount : Int) : Nat → σ → Except PyErr Int × σ
  | 0, st => (.error .failedIncrement, st)
  | rem + 1, st =>
    match m.get_connection key with
    | .error e => (.error e, st)
    | .ok node =>
      match B.incr node key amount st with
      | (.ok v, st2) => (.ok v, st2)
      | (.error .redisError, st2) =>
        if rem = 0 then (.error .failedIncrement, st2)
        else rmIncrLoop m B key amount rem st2
      | (.error e, st2) => (.error e, st2)

/-- RedisManager.increment with the configured retry budget. -/
def RedisManager.increment (m : RedisManager) {σ : Type} (B : StatefulClient σ)
    (key : String) (amount : Int) (st : σ) : Except PyErr Int × σ :=
  rmIncrLoop m B key amount REDIS_RETRY_ATTEMPTS st

/-- The retry loop of RedisManager.get: a client value of None is
returned as 0 together with the chosen node. -/
def rmGetLoop (m : RedisManager) {σ : Type} (B : StatefulClient σ)
    (key : String) : Nat → σ → Except PyErr (Int × String) × σ
  | 0, st => (.error .failedGet, st)
  | rem + 1, st =>
    match m.get_connection key with
    | .error e => (.error e, st)
    | .ok node =>
      match B.get node key st with
      | (.ok value, st2) =>
        ((.ok (match value with | some v => v | none => 0, node)), st2)
      | (.error .redisError, st2) =>
        if rem = 0 then (.error .failedGet, st2)
        else rmGetLoop m B key rem st2
      | (.error e, st2) => (.error e, st2)

/-- RedisManager.get with the configured retry budget. -/
def RedisManager.get (m : RedisManager) {σ : Type} (B : StatefulClient σ)
    (key : String) (st : σ) : Except PyErr (Int × String) × σ :=
  rmGetLoop m B key REDIS_RETRY_ATTEMPTS st

/-- RedisManager.reset: route, delete, return whether a value existed;
a redis.RedisError is wrapped and re-raised, other exceptions
propagate. -/
def RedisManager.reset (m : RedisManager) {σ : Type} (B : StatefulClient σ)
    (key : String) (st : σ) : Except PyErr Bool × σ :=
  match m.get_connection key with
  | .error e => (.error e, st)
  | .ok node =>
    match B.del node key st with
    | (.ok b, st2) => (.ok b, st2)
    | (.error .redisError, st2) => (.error .failedReset, st2)
    | (.error e, st2) => (.error e, st2)

/-! ## The counter service (app/services/visit_counter.py)

The mutable service state holds the read cache, the write buffer and
the abstract shard-client state; the shard manager and the client
behaviour are passed explicitly.  The metrics object and the
last_write_time field are not threaded: no claim depends on their
values, only on the attribute error raised by reading the undeclared
hit and miss counters, which is embedded through the declared field
list of the CounterMetrics pydantic model. -/

/-- One cache entry: the dict with the value and timestamp slots. -/
structure CacheEntry where
  value : Int
  timestamp : Nat
deriving Repr, DecidableEq

structure SvcState (σ : Type) where
  cache : List (String × CacheEntry)
  write_buffer : List (String × Int)
  shard : σ

/-- The declared fields of the CounterMetrics pydantic model
(app/schemas/counter.py). -/
def counterMetricsFields : List String :=
  ["visits", "status", "cache_size", "last_update"]

/-- The augmented assignment self.metrics.f += 1 first reads the
attribute; a pydantic model raises AttributeError for a field that is
not declared. -/
def metricsIncrCounter (field : String) : Except PyErr Unit :=
  if counterMetricsFields.contains field then .ok () else .error .attributeError

/-- The per-entry loop of _flush_write_buffer over the snapshot: a
positive pending count is sent to the routed shard; on any exception
the count is restored into the live buffer by addition. -/
def flushLoopSvc (m : RedisManager) {σ : Type} (B : StatefulClient σ) :
    List (String × Int) → SvcState σ → SvcState σ
  | [], s => s
  | (page_id, count) :: rest, s =>
    if 0 < count then
      match RedisManager.increment m B ("visits:" ++ page_id) count s.shard with
      | (.ok _, sh) => flushLoopSvc m B rest { s with shard := sh }
      | (.error _, sh) =>
        flushLoopSvc m B rest
          { s with shard := sh,
                   write_buffer :=
                     dset s.write_buffer page_id
                       (dgetD s.write_buffer page_id 0 + count) }
    else flushLoopSvc m B rest s

/-- VisitCounterService._flush_write_buffer: an empty buffer returns
at once; otherwise the buffer is snapshotted and emptied, then every
snapshot entry is flushed with restore-on-failure. -/
def flush_write_buffer (m : RedisManager) {σ : Type} (B : StatefulClient σ)
    (s : SvcState σ) : SvcState σ :=
  if s.write_buffer.isEmpty then s
  else
    let buffer_to_write := s.write_buffer
    flushLoopSvc m B buffer_to_write { s with write_buffer := [] }

/-- VisitCounterService.increment_visit: add one to the pending delta
of the page and drop the cache entry of its storage key. -/
def increment_visit {σ : Type} (s : SvcState σ) (page_id : String) : SvcState σ :=
  let wb := dset s.write_buffer page_id (dgetD s.write_buffer page_id 0 + 1)
  { s with write_buffer := wb, cache := dpop s.cache ("visits:" ++ page_id) }

/-- The cache-populating assignment of get_visit_count: a plain dict
assignment of the value/timestamp entry under the storage key, with no
capacity check and no eviction (CACHE_CAPACITY is read nowhere in the
source). -/
def cacheInsert (cache : List (String × CacheEntry)) (cache_key : String)
    (count : Int) (now : Nat) : List (String × CacheEntry) :=
  dset cache cache_key { value := count, timestamp := now }

/-- The try block of VisitCounterService.get_visit_count from the
cache-miss point on: count the miss, flush synchronously, read the
routed shard, add any still-buffered delta, populate the cache and
return the count with the redis source tag. -/
def getVisitMiss (m : RedisManager) {σ : Type} (B : StatefulClient σ)
    (s : SvcState σ) (page_id : String) (now : Nat) :
    Except PyErr (Int × String) × SvcState σ :=
  let cache_key := "visits:" ++ page_id
  match metricsIncrCounter "cache_misses" with
  | .error er => (.error er, s)
  | .ok _ =>
    let s1 := flush_write_buffer m B s
    match RedisManager.get m B cache_key s1.shard with
    | (.error er, sh) => (.error er, { s1 with shard := sh })
    | (.ok (count0, node), sh) =>
      let s2 := { s1 with shard := sh }
      let count := count0 + dgetD s2.write_buffer page_id 0
      let s3 := { s2 with cache := cacheInsert s2.cache cache_key count now }
      (.ok (count, "redis_" ++ node), s3)

/-- The try block of VisitCounterService.get_visit_count: a cache
entry within TTL counts a hit and returns the cached value with the
in_memory tag; otherwise the miss path runs. -/
def tryGetVisitCount (m : RedisManager) {σ : Type} (B : StatefulClient σ)
    (s : SvcState σ) (page_id : String) (now : Nat) :
    Except PyErr (Int × String) × SvcState σ :=
  let cache_key := "visits:" ++ page_id
  match dget? s.cache cache_key with
  | some entry =>
    if now - entry.timestamp < CACHE_TTL_SECONDS then
      match metricsIncrCounter "cache_hits" with
      | .error er => (.error er, s)
      | .ok _ => (.ok (entry.value, "in_memory"), s)
    else getVisitMiss m B s page_id now
  | none => getVisitMiss m B s page_id now

/-- VisitCounterService.get_visit_count: the try block with its
catch-all handler, which degrades to the current buffered delta of
the page (default 0) with the write_buffer source tag. -/
def get_visit_count (m : RedisManager) {σ : Type} (B : StatefulClient σ)
    (s : SvcState σ) (page_id : String) (now : Nat) :
    (Int × String) × SvcState σ :=
  match tryGetVisitCount m B s page_id now with
  | (.ok r, s2) => (r, s2)
  | (.error _, s2) => ((dgetD s2.write_buffer page_id 0, "write_buffer"), s2)

/-- VisitCounterService.reset_counter: pop the cache entry and the
buffered delta, then delete at the routed shard; a shard error
propagates after the local removals. -/
def reset_counter (m : RedisManager) {σ : Type} (B : StatefulClient σ)
    (s : SvcState σ) (page_id : String) : Except PyErr Bool × SvcState σ :=
  let cache_key := "visits:" ++ page_id
  let s1 := { s with cache := dpop s.cache cache_key,
                     write_buffer := dpop s.write_buffer page_id }
  match RedisManager.reset m B cache_key s1.shard with
  | (.ok b, sh) => (.ok b, { s1 with shard := sh })
  | (.error er, sh) => (.error er, { s1 with shard := sh })

/-- VisitCounterService._cleanup_cache: drop every cache entry whose
age reached the TTL. -/
def cleanup_cache {σ : Type} (s : SvcState σ) (now : Nat) : SvcState σ :=
  { s with
    cache := List.filter (fun p => now - p.2.timestamp < CACHE_TTL_SECONDS) s.cache }

/-! ## A concrete shard-client behaviour

A flat key-value store shared by the claims that need an actual
backing shard: incr adds to the stored value (missing keys count as
0) and returns the new value, get returns the stored value when
present, del removes the key and reports whether it existed.  The
three predicates select keys whose incr, get or del raises
redis.RedisError without touching the store, which mirrors an
unreachable shard for those calls. -/
def storeClient (failIncr failGet failDel : String → Bool) :
    StatefulClient (List (String × Int)) where
  incr := fun _ key amount st =>
    if failIncr key then (.error .redisError, st)
    else
      let v := dgetD st key 0 + amount
      (.ok v, dset st key v)
  get := fun _ key st =>
    if failGet key then (.error .redisError, st)
    else (.ok (dget? st key), st)
  del := fun _ key st =>
    if failDel key then (.error .redisError, st)
    else (.ok (dmem st key), dpop st key)

/-- The always-successful client over a flat store. -/
def okClient : StatefulClient (List (String × Int)) :=
  storeClient (fun _ => false) (fun _ => false) (fun _ => false)

/-! ## Ring operation sequences

Administrative traces over the ring, for the ring invariant. -/

inductive RingOp where
  | add (node : String)
  | remove (node : String)
deriving Repr, DecidableEq

/-- The node an operation mentions. -/
def opNode : RingOp → String
  | .add n => n
  | .remove n => n

/-- Application of a trace of ring operations; none when an add runs
out of collision fuel or a remove is applied to an absent shard. -/
def applyOps (hash : String → Nat) (fuel : Nat) :
    ConsistentHash → List RingOp → Option ConsistentHash
  | r, [] => some r
  | r, .add n :: rest =>
    match addNodeCore hash r n fuel with
    | none => none
    | some r2 => applyOps hash fuel r2 rest
  | r, .remove n :: rest =>
    match removeNodeCore hash r n with
    | .error _ => none
    | .ok r2 => applyOps hash fuel r2 rest

/-- The ring state before any node is added. -/
def emptyRingState (virtual_nodes : Nat) : ConsistentHash :=
  { virtual_nodes := virtual_nodes, hash_ring := [], sorted_keys := [], nodes := [] }

/-- Modelled from the spec: lookup computes the key hash and returns
the entry at the first stored hash strictly greater than it, or the
entry at index 0 when no stored hash is greater; an empty ring fails
with the empty-ring error.  This is the reference point the code is
compared against. -/
def routeSpec (hash : String → Nat) (r : ConsistentHash) (key : String) :
    Except PyErr String :=
  if r.hash_ring.isEmpty then .error .emptyRing
  else
    let key_hash := hash key
    let i := r.sorted_keys.findIdx (fun h => key_hash < h)
    let j := if i = r.sorted_keys.length then 0 else i
    match r.sorted_keys.get? j with
    | none => .error .indexError
    | some h =>
      match dget? r.hash_ring h with
      | none => .error .keyError
      | some node => .ok node

/-- The ring content determined by a node list: for each node in
order, one entry per virtual-node label, keyed by the label hash.
When no collision-rehash ever fires, the hash_ring attribute is
exactly this list. -/
def ringEntries (hash : String → Nat) (v : Nat) (nodes : List String) :
    List (Nat × String) :=
  nodes.flatMap (fun n => (labelsOf v n).map (fun l => (hash l, n)))

/-- The reachability characterization of a ring state: the virtual
node count is fixed, the node set is duplicate-free and drawn from
the universe U of nodes ever mentioned, and the ring holds exactly
the label entries of the present nodes. -/
def RingChar (hash : String → Nat) (V : Nat) (U : List String)
    (r : ConsistentHash) : Prop :=
  r.virtual_nodes = V ∧ r.nodes.Nodup ∧ r.nodes ⊆ U ∧
  r.hash_ring = ringEntries hash V r.nodes

/-- Collision-freedom of the hash over the labels of a node universe:
the hashes of all virtual-node labels of all nodes in U are pairwise
distinct. -/
def HInj (hash : String → Nat) (V : Nat) (U : List String) : Prop :=
  ((U.flatMap (labelsOf V)).map hash).Nodup

/-- A hash function with a collision between the base labels of two
nodes (hash of A_0 equals hash of B_0), used to exercise the
collision-resolution branch of add_node. -/
def collideHash : String → Nat :=
  fun s =>
    if s = "A_0" then 5
    else if s = "B_0" then 5
    else if s = "B_0_collision" then 7
    else 1000 + s.length

/-! ## Concrete fixtures

A two-shard deployment with one virtual node per shard, small enough
for the kernel to evaluate its MD5 ring, used by the concrete
witnesses and counterexamples.  The shard URLs satisfy the
configuration validator (both carry the redis prefix). -/

def nodeA : String := "redis://n1:6379"
def nodeB : String := "redis://n3:6379"

/-- The MD5 hash of the single virtual-node label of nodeA. -/
def hashA : Nat := 116482444920116365438169652135036942512

/-- The MD5 hash of the single virtual-node label of nodeB. -/
def hashB : Nat := 313293767712631198555964179944708859726

/-- The ring state left by adding nodeA and nodeB and then removing
nodeB on the one-virtual-node MD5 ring. -/
def ringAfterTrace : ConsistentHash :=
  { virtual_nodes := 1,
    hash_ring := [(116482444920116365438169652135036942512, "redis://n1:6379")],
    sorted_keys := [116482444920116365438169652135036942512],
    nodes := ["redis://n1:6379"] }

/-- The two-shard manager with both connections up. -/
def mgr2 : RedisManager :=
  { node_health := [(nodeA, true), (nodeB, true)],
    redis_clients := [nodeA, nodeB],
    redis_nodes := [nodeA, nodeB],
    consistent_hash :=
      { virtual_nodes := 1,
        hash_ring := [(hashA, nodeA), (hashB, nodeB)],
        sorted_keys := [hashA, hashB],
        nodes := [nodeA, nodeB] } }

/-- The two-shard manager with exactly nodeB marked unhealthy. -/
def mgr2downB : RedisManager :=
  { mgr2 with node_health := [(nodeA, true), (nodeB, false)] }

/-- The two-shard manager with exactly nodeA marked unhealthy. -/
def mgr2downA : RedisManager :=
  { mgr2 with node_health := [(nodeA, false), (nodeB, true)] }

/-- The service state with empty cache, empty buffer and empty store. -/
def svc0 : SvcState (List (String × Int)) :=
  { cache := [], write_buffer := [], shard := [] }

/-- A client whose incr fails for the storage key of page-1. -/
def incrFailClient : StatefulClient (List (String × Int)) :=
  storeClient (fun k => k = "visits:page-1") (fun _ => false) (fun _ => false)

/-- A client whose del fails for every key. -/
def delFailClient : StatefulClient (List (String × Int)) :=
  storeClient (fun _ => false) (fun _ => false) (fun _ => true)

/-! # Theorems -/

/-! ## Dictionary lemmas -/

theorem dget?_dset_self {α : Type} [DecidableEq α] {β : Type}
    (l : List (α × β)) (k : α) (v : β) : dget? (dset l k v) k = some v := by
  induction l with
  | nil => simp [dset, dget?]
  | cons p t ih =>
    obtain ⟨k0, v0⟩ := p
    by_cases h : k0 = k
    · simp [dset, dget?, h]
    · simp [dset, dget?, h, List.find?_cons] at *
      exact ih

theorem find?_dset_ne {α : Type} [DecidableEq α] {β : Type}
    (l : List (α × β)) (k k2 : α) (v : β) (hne : k2 ≠ k) :
    List.find? (fun p => p.1 = k2) (dset l k v)
      = List.find? (fun p => p.1 = k2) l := by
  induction l with
  | nil => simp [dset, List.find?_cons, Ne.symm hne]
  | cons p t ih =>
    obtain ⟨k0, v0⟩ := p
    by_cases h : k0 = k
    · subst h
      simp [dset, List.find?_cons, Ne.symm hne]
    · by_cases h2 : k0 = k2
      · simp [dset, h, List.find?_cons, h2, hne]
      · simp [dset, h, List.find?_cons, h2, ih]

theorem dget?_dset_ne {α : Type} [DecidableEq α] {β : Type}
    (l : List (α × β)) (k k2 : α) (v : β) (hne : k2 ≠ k) :
    dget? (dset l k v) k2 = dget? l k2 := by
  simp [dget?, find?_dset_ne _ _ _ _ hne]

theorem dgetD_dset_self {α : Type} [DecidableEq α] {β : Type}
    (l : List (α × β)) (k : α) (v d : β) : dgetD (dset l k v) k d = v := by
  simp [dgetD, dget?_dset_self]

theorem dgetD_dset_ne {α : Type} [DecidableEq α] {β : Type}
    (l : List (α × β)) (k k2 : α) (v : β) (d : β) (hne : k2 ≠ k) :
    dgetD (dset l k v) k2 d = dgetD l k2 d := by
  simp [dgetD, dget?_dset_ne _ _ _ _ hne]

theorem dget?_dpop_self {α : Type} [DecidableEq α] {β : Type}
    (l : List (α × β)) (k : α) : dget? (dpop l k) k = none := by
  have hfind : List.find? (fun p => p.1 = k) (dpop l k) = none := by
    rw [List.find?_eq_none]
    intro p hp
    have h2 := (List.mem_filter.mp hp).2
    simpa using h2
  simp [dget?, hfind]

theorem dmem_of_mem {α : Type} [DecidableEq α] {β : Type}
    (l : List (α × β)) (p : α × β) (hp : p ∈ l) : dmem l p.1 = true := by
  simp only [dmem, List.any_eq_true]
  exact ⟨p, hp, by simp⟩

theorem length_dset_of_fresh {α : Type} [DecidableEq α] {β : Type}
    (l : List (α × β)) (k : α) (v : β) (h : dmem l k = false) :
    (dset l k v).length = l.length + 1 := by
  induction l with
  | nil => simp [dset]
  | cons p t ih =>
    obtain ⟨k0, v0⟩ := p
    simp [dmem] at h
    obtain ⟨h1, h2⟩ := h
    simp [dset, h1, ih (by simpa [dmem] using h2)]

theorem mem_dset_of_ne {α : Type} [DecidableEq α] {β : Type}
    (l : List (α × β)) (k : α) (v : β) (p : α × β) (hp : p ∈ l) (hne : p.1 ≠ k) :
    p ∈ dset l k v := by
  induction l with
  | nil => simp at hp
  | cons q t ih =>
    obtain ⟨k0, v0⟩ := q
    rcases List.mem_cons.mp hp with h | h
    · subst h
      simp only [dset]
      split
      · rename_i hk
        exact absurd hk hne
      · exact List.mem_cons_self _ _
    · simp only [dset]
      split
      · exact List.mem_cons_of_mem _ h
      · exact List.mem_cons_of_mem _ (ih h)

/-! ## Fixture facts -/

/-- The literal two-shard manager is exactly what the constructor
builds over the two shard URLs with one virtual node. -/
theorem mgr2_from_init :
    RedisManager.init [nodeA, nodeB] 1 5 (fun _ => true) = some mgr2 := by decide

/-- The metrics counters read by get_visit_count are not declared by
the CounterMetrics model, so the augmented assignments raise. -/
theorem metrics_counters_missing :
    metricsIncrCounter "cache_hits" = .error .attributeError ∧
    metricsIncrCounter "cache_misses" = .error .attributeError :=
  ⟨rfl, rfl⟩

/-- The try block of get_visit_count always raises: every path reads
an undeclared metrics counter before returning. -/
theorem tryGet_always_raises {σ : Type} (m : RedisManager) (B : StatefulClient σ)
    (s : SvcState σ) (page_id : String) (now : Nat) :
    tryGetVisitCount m B s page_id now = (.error .attributeError, s) := by
  have h1 : metricsIncrCounter "cache_hits" = .error .attributeError := rfl
  have h2 : metricsIncrCounter "cache_misses" = .error .attributeError := rfl
  unfold tryGetVisitCount getVisitMiss
  simp only [h1, h2]
  split
  · split
    · rfl
    · rfl
  · rfl

/-! ## Claim theorems -/

/-- C1: the round-trip fails on the code.  Starting from a completed
reset of page-1 with an empty store, three increments followed by a
flush do place the count 3 at the shard, but the subsequent get
returns (0, write_buffer): the miss path of get_visit_count reads the
undeclared metrics counter cache_misses, the AttributeError is caught
by the catch-all handler, and the degraded reply is produced instead
of the shard value. -/
theorem c1_roundtrip_fails_on_code :
    (let r := reset_counter mgr2 okClient svc0 "page-1"
     let s1 := increment_visit (increment_visit (increment_visit r.2 "page-1") "page-1") "page-1"
     let s2 := flush_write_buffer mgr2 okClient s1
     ((get_visit_count mgr2 okClient s2 "page-1" 100).1,
      dgetD s2.shard "visits:page-1" 0))
    = ((0, "write_buffer"), 3) := by decide

/-- C2: a fresh cache hit does not return the cached value on the
code.  With a cache entry for visits:page-1 whose timestamp is within
TTL of now, get_visit_count reads the undeclared metrics counter
cache_hits before returning, the AttributeError is caught, and the
degraded reply (0, write_buffer) is produced instead of
(3, in_memory). -/
theorem c2_cache_hit_fails_on_code :
    (11 - 10 < CACHE_TTL_SECONDS) ∧
    (get_visit_count mgr2 okClient
      { cache := [("visits:page-1", { value := 3, timestamp := 10 })],
        write_buffer := [], shard := [] } "page-1" 11).1
      = (0, "write_buffer") := by decide

/-- C4: the cache-populating insert of get_visit_count performs no
eviction.  For any cache already at or beyond CACHE_CAPACITY and any
key not yet cached, the insert grows the cache past the capacity and
every previously cached entry survives, so no oldest-entry eviction
takes place anywhere in the code. -/
theorem c4_insert_never_evicts (cache : List (String × CacheEntry)) (k : String)
    (v : Int) (now : Nat) (hfresh : dmem cache k = false)
    (hfull : CACHE_CAPACITY ≤ cache.length) :
    (cacheInsert cache k v now).length = cache.length + 1 ∧
    CACHE_CAPACITY < (cacheInsert cache k v now).length ∧
    ∀ p ∈ cache, p ∈ cacheInsert cache k v now := by
  refine ⟨length_dset_of_fresh _ _ _ hfresh, ?_, ?_⟩
  · rw [cacheInsert, length_dset_of_fresh _ _ _ hfresh]
    omega
  · intro p hp
    refine mem_dset_of_ne _ _ _ _ hp ?_
    intro hk
    have hmem := dmem_of_mem cache p hp
    rw [hk, hfresh] at hmem
    cases hmem

/-- Witness for C4: a cache filled to the configured capacity of 1000
entries accepts one more entry without evicting anything. -/
theorem c4_insert_never_evicts_witness :
    ((cacheInsert (List.replicate CACHE_CAPACITY ("visits:page-1", { value := 0, timestamp := 0 }))
        "visits:page-2" 7 3).length
      = (List.replicate CACHE_CAPACITY (("visits:page-1", ({ value := 0, timestamp := 0 } : CacheEntry)))).length + 1) ∧
    CACHE_CAPACITY < (cacheInsert (List.replicate CACHE_CAPACITY ("visits:page-1", { value := 0, timestamp := 0 }))
        "visits:page-2" 7 3).length ∧
    ∀ p ∈ List.replicate CACHE_CAPACITY (("visits:page-1", ({ value := 0, timestamp := 0 } : CacheEntry))),
      p ∈ cacheInsert (List.replicate CACHE_CAPACITY ("visits:page-1", { value := 0, timestamp := 0 }))
        "visits:page-2" 7 3 :=
  c4_insert_never_evicts _ _ _ _ (by decide) (by decide)

/-- C9: the public get is total and degrades on every failure path.
For every shard manager, every client behaviour (including one that
raises anywhere) and every service state, get_visit_count returns
normally, and the reply of a failure path is the buffered delta of
the page (0 when absent) tagged write_buffer, read from the state at
the moment the exception was caught. -/
theorem c9_get_total_and_degrades {σ : Type} (m : RedisManager)
    (B : StatefulClient σ) (s : SvcState σ) (page_id : String) (now : Nat) :
    ∃ s2 : SvcState σ,
      get_visit_count m B s page_id now
        = ((dgetD s2.write_buffer page_id 0, "write_buffer"), s2) := by
  refine ⟨s, ?_⟩
  unfold get_visit_count
  rw [tryGet_always_raises]

/-- C10: reset is not atomic with respect to shard failure.  When the
shard delete for the storage key fails, reset_counter propagates that
error, yet the cache entry and the buffered delta of the page have
already been removed from the returned state. -/
theorem c10_reset_not_atomic {σ : Type} (m : RedisManager)
    (B : StatefulClient σ) (s : SvcState σ) (page_id : String) (e : PyErr)
    (hfail : (RedisManager.reset m B ("visits:" ++ page_id) s.shard).1 = .error e) :
    (reset_counter m B s page_id).1 = .error e ∧
    dget? (reset_counter m B s page_id).2.cache ("visits:" ++ page_id) = none ∧
    dget? (reset_counter m B s page_id).2.write_buffer page_id = none := by
  unfold reset_counter
  rcases hres : RedisManager.reset m B ("visits:" ++ page_id) s.shard with ⟨r, sh⟩
  rw [hres] at hfail
  simp only at hfail
  cases r with
  | ok b => cases hfail
  | error e2 =>
    cases hfail
    simp only [hres]
    exact ⟨by trivial, dget?_dpop_self _ _, dget?_dpop_self _ _⟩

/-- Witness for C10: with a client whose delete raises, resetting
page-1 propagates the wrapped failure while the cached entry and the
pending delta of page-1 are gone from the resulting state. -/
theorem c10_reset_not_atomic_witness :
    ((reset_counter mgr2 delFailClient
        { cache := [("visits:page-1", { value := 5, timestamp := 0 })],
          write_buffer := [("page-1", 2)], shard := [("visits:page-1", 5)] }
        "page-1").1 = .error .failedReset) ∧
    dget? (reset_counter mgr2 delFailClient
        { cache := [("visits:page-1", { value := 5, timestamp := 0 })],
          write_buffer := [("page-1", 2)], shard := [("visits:page-1", 5)] }
        "page-1").2.cache ("visits:" ++ "page-1") = none ∧
    dget? (reset_counter mgr2 delFailClient
        { cache := [("visits:page-1", { value := 5, timestamp := 0 })],
          write_buffer := [("page-1", 2)], shard := [("visits:page-1", 5)] }
        "page-1").2.write_buffer "page-1" = none :=
  c10_reset_not_atomic mgr2 delFailClient
    { cache := [("visits:page-1", { value := 5, timestamp := 0 })],
      write_buffer := [("page-1", 2)], shard := [("visits:page-1", 5)] }
    "page-1" .failedReset (by decide)

/-- C8: a successfully routed get for a key the shard does not hold
returns the value 0 paired with the shard id, not an error. -/
theorem c8_missing_key_yields_zero {σ : Type} (m : RedisManager)
    (B : StatefulClient σ) (key node : String) (st : σ)
    (hconn : m.get_connection key = .ok node)
    (hget : (B.get node key st).1 = .ok none) :
    RedisManager.get m B key st = (.ok (0, node), (B.get node key st).2) := by
  rcases hg : B.get node key st with ⟨r, st2⟩
  rw [hg] at hget
  simp only at hget
  subst hget
  unfold RedisManager.get REDIS_RETRY_ATTEMPTS rmGetLoop
  rw [hconn]
  simp [hg]

/-- Witness for C8: over an empty store, getting the storage key of
page-1 through the two-shard manager returns 0 paired with the routed
shard. -/
theorem c8_missing_key_yields_zero_witness :
    RedisManager.get mgr2 okClient "visits:page-1" []
      = (.ok (0, nodeA), (okClient.get nodeA "visits:page-1" []).2) :=
  c8_missing_key_yields_zero mgr2 okClient "visits:page-1" nodeA []
    (by decide) (by decide)

/-- The flush loop never touches the pending delta of a key that none
of the remaining snapshot entries carries: the restore assignments hit
only their own keys. -/
theorem flushLoopSvc_buffer_stable {σ : Type} (m : RedisManager)
    (B : StatefulClient σ) (K : String) :
    ∀ (rest : List (String × Int)) (s : SvcState σ), (∀ p ∈ rest, p.1 ≠ K) →
      dgetD (flushLoopSvc m B rest s).write_buffer K 0
        = dgetD s.write_buffer K 0 := by
  intro rest
  induction rest with
  | nil => intro s _; rfl
  | cons p t ih =>
    intro s h
    obtain ⟨k, c⟩ := p
    have hk : k ≠ K := h (k, c) (List.mem_cons_self _ _)
    have ht : ∀ q ∈ t, q.1 ≠ K := fun q hq => h q (List.mem_cons_of_mem _ hq)
    unfold flushLoopSvc
    split
    · rcases hinc : RedisManager.increment m B ("visits:" ++ k) c s.shard with ⟨r, sh⟩
      cases r with
      | ok v =>
        simp only [hinc]
        exact ih _ ht
      | error e =>
        simp only [hinc]
        rw [ih _ ht]
        exact dgetD_dset_ne _ _ _ _ _ (Ne.symm hk)
    · exact ih s ht

/-- C7: restore-on-failure.  For every snapshot entry (K, delta) with
a positive delta whose shard increment fails, the flush loop merges
delta back into the live buffer by adding it to whatever the buffer
holds for K at that point, for an arbitrary live buffer (that is, to
anything that accumulated for K since the snapshot), so the failed
increments are deferred rather than dropped. -/
theorem c7_flush_restore_on_failure {σ : Type} (m : RedisManager)
    (B : StatefulClient σ) (K : String) (δ : Int) :
    ∀ (snapshot : List (String × Int)) (s : SvcState σ),
    (snapshot.map Prod.fst).Nodup → (K, δ) ∈ snapshot → 0 < δ →
    (∀ st : σ, ∃ e, (RedisManager.increment m B ("visits:" ++ K) δ st).1 = .error e) →
    dgetD (flushLoopSvc m B snapshot s).write_buffer K 0
      = dgetD s.write_buffer K 0 + δ := by
  intro snapshot
  induction snapshot with
  | nil =>
    intro s _ hmem
    cases hmem
  | cons p t ih =>
    intro s hnd hmem hδ hfail
    obtain ⟨k, c⟩ := p
    have hnd2 : (t.map Prod.fst).Nodup := (List.nodup_cons.mp hnd).2
    have hknotin : k ∉ t.map Prod.fst := (List.nodup_cons.mp hnd).1
    rcases List.mem_cons.mp hmem with he | htail
    · cases he
      unfold flushLoopSvc
      rw [if_pos hδ]
      obtain ⟨e, he2⟩ := hfail s.shard
      rcases hinc : RedisManager.increment m B ("visits:" ++ K) δ s.shard with ⟨r, sh⟩
      rw [hinc] at he2
      simp only at he2
      subst he2
      simp only [hinc]
      have hnotin : ∀ q ∈ t, q.1 ≠ K := by
        intro q hq hqK
        exact hknotin (hqK ▸ List.mem_map_of_mem Prod.fst hq)
      rw [flushLoopSvc_buffer_stable m B K t _ hnotin]
      simp [dgetD_dset_self]
    · have hkK : k ≠ K := by
        intro h
        subst h
        exact hknotin (List.mem_map_of_mem Prod.fst htail)
      unfold flushLoopSvc
      split
      · rcases hinc : RedisManager.increment m B ("visits:" ++ k) c s.shard with ⟨r, sh⟩
        cases r with
        | ok v =>
          simp only [hinc]
          exact ih _ hnd2 htail hδ hfail
        | error e =>
          simp only [hinc]
          rw [ih _ hnd2 htail hδ hfail]
          rw [dgetD_dset_ne _ _ _ _ _ (Ne.symm hkK)]
      · exact ih s hnd2 htail hδ hfail

/-- Witness for C7: a snapshot holding 2 pending visits of page-1
whose shard increments always fail merges the 2 into the live buffer
that already accumulated 1 more visit since the snapshot. -/
theorem c7_flush_restore_on_failure_witness :
    dgetD (flushLoopSvc mgr2 incrFailClient [("page-1", 2)]
        { cache := [], write_buffer := [("page-1", 1)], shard := [] }).write_buffer
      "page-1" 0
    = dgetD ({ cache := [], write_buffer := [("page-1", 1)], shard := [] }
        : SvcState (List (String × Int))).write_buffer "page-1" 0 + 2 :=
  c7_flush_restore_on_failure mgr2 incrFailClient "page-1" 2 [("page-1", 2)]
    { cache := [], write_buffer := [("page-1", 1)], shard := [] }
    (by decide) (by decide) (by decide)
    (fun st => ⟨.failedIncrement, rfl⟩)

/-! ## Binary-search correctness of the ring lookup -/

/-- Monotonicity of indexed access into a sorted list. -/
theorem getD_mono_of_sorted (a : List Nat) (hs : a.Sorted (· ≤ ·))
    (i j : Nat) (hij : i ≤ j) (hj : j < a.length) :
    a.getD i 0 ≤ a.getD j 0 := by
  rcases Nat.eq_or_lt_of_le hij with rfl | hlt
  · exact le_refl _
  · have hi : i < a.length := lt_trans hlt hj
    have h := List.Sorted.rel_get_of_lt hs (a := ⟨i, hi⟩) (b := ⟨j, hj⟩)
      (Fin.mk_lt_mk.mpr hlt)
    rw [List.getD_eq_getElem _ _ hi, List.getD_eq_getElem _ _ hj]
    exact h

/-- The invariant of the bisect loop: positions below the returned
index hold values at most x, positions at or above it (within the
list) hold values above x. -/
theorem bisectLoop_spec (a : List Nat) (x : Nat) (hs : a.Sorted (· ≤ ·)) :
    ∀ (fuel lo hi : Nat), lo ≤ hi → hi ≤ a.length → hi - lo ≤ fuel →
    (∀ j, j < lo → a.getD j 0 ≤ x) →
    (∀ j, hi ≤ j → j < a.length → x < a.getD j 0) →
    (∀ j, j < bisectLoop a x fuel lo hi → a.getD j 0 ≤ x) ∧
    (∀ j, bisectLoop a x fuel lo hi ≤ j → j < a.length → x < a.getD j 0) ∧
    bisectLoop a x fuel lo hi ≤ a.length := by
  intro fuel
  induction fuel with
  | zero =>
    intro lo hi hlohi hhi hfuel hlow hhigh
    have : lo = hi := by omega
    subst this
    exact ⟨hlow, hhigh, le_trans hlohi hhi⟩
  | succ fuel ih =>
    intro lo hi hlohi hhi hfuel hlow hhigh
    unfold bisectLoop
    by_cases hlt : lo < hi
    · rw [if_pos hlt]
      by_cases hx : x < a.getD ((lo + hi) / 2) 0
      · rw [if_pos hx]
        refine ih lo ((lo + hi) / 2) (by omega) (by omega) (by omega) hlow ?_
        intro j hj1 hj2
        exact lt_of_lt_of_le hx (getD_mono_of_sorted a hs _ _ hj1 hj2)
      · rw [if_neg hx]
        refine ih ((lo + hi) / 2 + 1) hi (by omega) hhi (by omega) ?_ hhigh
        intro j hj
        rcases Nat.lt_or_ge j lo with hjlo | hjlo
        · exact hlow j hjlo
        · have : a.getD j 0 ≤ a.getD ((lo + hi) / 2) 0 :=
            getD_mono_of_sorted a hs _ _ (by omega) (by omega)
          omega
    · rw [if_neg hlt]
      have : lo = hi := by omega
      subst this
      exact ⟨hlow, hhigh, le_trans hlohi hhi⟩

/-- On a sorted list, the Python bisect computes exactly the index of
the first element strictly greater than x (the length when none is). -/
theorem pybisect_eq_findIdx (a : List Nat) (x : Nat) (hs : a.Sorted (· ≤ ·)) :
    pybisect a x = a.findIdx (fun h => x < h) := by
  obtain ⟨h1, h2, h3⟩ :=
    bisectLoop_spec a x hs (a.length + 1) 0 a.length (Nat.zero_le _) (le_refl _)
      (by omega) (by omega) (by omega)
  have hfle : a.findIdx (fun h => x < h) ≤ a.length := List.findIdx_le_length _
  refine le_antisymm ?_ ?_
  · by_contra hcon
    push_neg at hcon
    have hfl : a.findIdx (fun h => x < h) < a.length := lt_of_lt_of_le hcon h3
    have hp : (fun h => decide (x < h)) (a.get ⟨_, hfl⟩) = true := by
      have := @List.findIdx_getElem _ (fun h => decide (x < h)) a hfl
      simpa using this
    have hle : a.getD (a.findIdx (fun h => x < h)) 0 ≤ x := h1 _ hcon
    rw [List.getD_eq_getElem _ _ hfl] at hle
    simp at hp
    omega
  · by_contra hcon
    push_neg at hcon
    have hbl : pybisect a x < a.length := lt_of_lt_of_le hcon hfle
    have hp := @List.not_of_lt_findIdx _ (fun h => decide (x < h)) a _ hcon
    have hgt : x < a.getD (pybisect a x) 0 := h2 _ (le_refl _) hbl
    rw [List.getD_eq_getElem _ _ hbl] at hgt
    simp at hp
    omega

/-- C6: the ring lookup implements the spec.  On a sorted key list,
get_node returns the node stored under the first ring hash strictly
greater than the hash of the key, wrapping to the entry at index 0
when no stored hash is greater, and fails with the empty-ring error
exactly on an empty ring. -/
theorem c6_get_node_matches_spec (hash : String → Nat) (r : ConsistentHash)
    (key : String) (hs : r.sorted_keys.Sorted (· ≤ ·)) :
    getNodeCore hash r key = routeSpec hash r key ∧
    (r.hash_ring.isEmpty = true → getNodeCore hash r key = .error .emptyRing) := by
  constructor
  · unfold getNodeCore routeSpec
    simp only [pybisect_eq_findIdx _ _ hs]
  · intro he
    unfold getNodeCore
    rw [if_pos he]

/-- Witness for C6: the two-shard MD5 ring is sorted, and routing the
storage key of page-0 agrees with the first-strictly-greater rule. -/
theorem c6_get_node_matches_spec_witness :
    getNodeCore md5Hash mgr2.consistent_hash "visits:page-0"
      = routeSpec md5Hash mgr2.consistent_hash "visits:page-0" ∧
    (mgr2.consistent_hash.hash_ring.isEmpty = true →
      getNodeCore md5Hash mgr2.consistent_hash "visits:page-0"
        = .error .emptyRing) :=
  c6_get_node_matches_spec md5Hash mgr2.consistent_hash "visits:page-0" (by decide)

/-! ## Fallback routing -/

theorem dget?_mem {α : Type} [DecidableEq α] {β : Type}
    (l : List (α × β)) (k : α) (v : β) (h : dget? l k = some v) : (k, v) ∈ l := by
  rcases hf : List.find? (fun p => p.1 = k) l with _ | p
  · rw [dget?, hf] at h
    cases h
  · rw [dget?, hf] at h
    simp only [Option.map] at h
    rw [Option.some.injEq] at h
    have hm := List.mem_of_find?_eq_some hf
    have hk := List.find?_some hf
    simp only [decide_eq_true_eq] at hk
    have hpv : p = (k, v) := Prod.ext hk h
    rw [hpv] at hm
    exact hm

theorem dget?_of_dmem {α : Type} [DecidableEq α] {β : Type}
    (l : List (α × β)) (k : α) (h : dmem l k = true) :
    ∃ v, dget? l k = some v := by
  rcases hf : List.find? (fun p => p.1 = k) l with _ | p
  · rw [List.find?_eq_none] at hf
    simp only [dmem, List.any_eq_true] at h
    obtain ⟨p, hp, hk⟩ := h
    exact absurd hk (hf p hp)
  · exact ⟨p.2, by rw [dget?, hf]; rfl⟩

/-- C5 counterexample: with the two-shard MD5 ring, the fallback hash
of nodeB routes back to nodeB itself.  When exactly nodeB is
unhealthy, routing any key owned by nodeB exhausts the fallback loop
on nodeB and raises the no-healthy-nodes error, and both get and
increment fail — despite nodeA being healthy. -/
theorem c5_counterexample :
    mgr2downB.node_health = [(nodeA, true), (nodeB, false)] ∧
    mgr2downB.consistent_hash.get_node ("fallback_" ++ nodeB) = .ok nodeB ∧
    mgr2downB.get_connection "visits:page-0" = .error .noHealthyNodes ∧
    (RedisManager.get mgr2downB okClient "visits:page-0" []).1
      = .error .noHealthyNodes ∧
    (RedisManager.increment mgr2downB okClient "visits:page-0" 1 []).1
      = .error .noHealthyNodes := by decide

/-- C5 amended: the fallback finds a healthy shard provided the
fallback hash of the unhealthy shard escapes it.  If the key routes to
the only unhealthy shard X and the fallback label of X routes to a
different shard Y with a known health bit and a client, then
get_connection returns Y and Y is healthy, so the routed operations
can proceed. -/
theorem c5_amended_fallback_escapes (m : RedisManager) (key X Y : String)
    (hroute : m.consistent_hash.get_node key = .ok X)
    (hXdown : dget? m.node_health X = some false)
    (honly : ∀ p ∈ m.node_health, p.1 ≠ X → p.2 = true)
    (hfb : m.consistent_hash.get_node ("fallback_" ++ X) = .ok Y)
    (hYX : Y ≠ X)
    (hYmem : dmem m.node_health Y = true)
    (hYclient : m.redis_clients.contains Y = true)
    (hn : 1 ≤ m.redis_nodes.length) :
    m.get_connection key = .ok Y ∧ dget? m.node_health Y = some true := by
  obtain ⟨b, hb⟩ := dget?_of_dmem m.node_health Y hYmem
  have hbY : b = true := honly (Y, b) (dget?_mem _ _ _ hb) hYX
  subst hbY
  constructor
  · rcases hlen : m.redis_nodes.length with _ | len
    · omega
    · simp [RedisManager.get_connection, fallbackLoop, hroute, hXdown, hfb, hb,
        hYclient, hlen]
      simpa using hYclient
  · exact hb

/-- Witness for C5: with exactly nodeA unhealthy, the fallback hash of
nodeA routes to nodeB, so get_connection on a key owned by nodeA
succeeds with the healthy nodeB. -/
theorem c5_amended_fallback_escapes_witness :
    mgr2downA.get_connection "visits:page-1" = .ok nodeB ∧
    dget? mgr2downA.node_health nodeB = some true :=
  c5_amended_fallback_escapes mgr2downA "visits:page-1" nodeA nodeB
    (by decide) (by decide) (by decide) (by decide) (by decide) (by decide)
    (by decide) (by decide)

/-! ## The ring invariant -/

/-- C3 counterexample: under a hash collision between the base labels
of two nodes, add_node resolves the collision with the suffix but
remove_node recomputes only the base-label hashes.  Adding A then B
(whose label collides with the label of A and is stored rehashed) and
then removing B pops the entry of A and leaves the rehashed entry of
B in the ring: an entry now maps to an absent shard. -/
theorem c3_counterexample :
    applyOps collideHash 5 (emptyRingState 1) [.add "A", .add "B", .remove "B"]
      = some { virtual_nodes := 1, hash_ring := [(7, "B")], sorted_keys := [7],
               nodes := ["A"] } ∧
    ¬ (∀ p ∈ [((7 : Nat), "B")], p.2 ∈ ["A"]) := by decide

theorem dmem_false_iff {α : Type} [DecidableEq α] {β : Type}
    (l : List (α × β)) (k : α) : dmem l k = false ↔ k ∉ l.map Prod.fst := by
  rw [← Bool.not_eq_true]
  simp [dmem, List.any_eq_true, List.mem_map]

theorem dset_append_of_fresh {α : Type} [DecidableEq α] {β : Type}
    (l : List (α × β)) (k : α) (v : β) (h : dmem l k = false) :
    dset l k v = l ++ [(k, v)] := by
  induction l with
  | nil => rfl
  | cons p t ih =>
    obtain ⟨k0, v0⟩ := p
    simp only [dmem, List.any_cons, Bool.or_eq_false_iff] at h
    obtain ⟨h1, h2⟩ := h
    simp only [decide_eq_false_iff_not] at h1
    simp only [dset, if_neg h1, List.cons_append, List.cons.injEq, true_and]
    exact ih h2

/-- When the hash of the label is not yet a ring key, the collision
loop stops at once with that hash. -/
theorem resolveCollision_fresh (hash : String → Nat) (ring : List (Nat × String))
    (label : String) (fuel : Nat) (res : Nat)
    (hfresh : dmem ring (hash label) = false)
    (hres : resolveCollision hash ring label fuel = some res) : res = hash label := by
  cases fuel with
  | zero => cases hres
  | succ fuel =>
    unfold resolveCollision at hres
    rw [hfresh] at hres
    simp only [Bool.false_eq_true, if_false] at hres
    injection hres with h
    exact h.symm

/-- When every label hash of the index list is fresh for the ring and
the label hashes are pairwise distinct, the add loop appends exactly
one entry per index, in order. -/
theorem addVirtualNodes_spec (hash : String → Nat) (node : String) :
    ∀ (idxs : List Nat) (ring : List (Nat × String)) (fuel : Nat)
      (res : List (Nat × String)),
    (∀ i ∈ idxs, hash (vlabel node i) ∉ ring.map Prod.fst) →
    ((idxs.map (fun i => hash (vlabel node i))).Nodup) →
    addVirtualNodes hash node fuel idxs ring = some res →
    res = ring ++ idxs.map (fun i => (hash (vlabel node i), node)) := by
  intro idxs
  induction idxs with
  | nil =>
    intro ring fuel res _ _ happ
    injection happ with h
    subst h
    simp
  | cons i rest ih =>
    intro ring fuel res hfresh hnd happ
    have hf : dmem ring (hash (vlabel node i)) = false :=
      (dmem_false_iff _ _).mpr (hfresh i (List.mem_cons_self _ _))
    unfold addVirtualNodes at happ
    rcases hrc : resolveCollision hash ring (vlabel node i) fuel with _ | h
    · rw [hrc] at happ
      cases happ
    · rw [hrc] at happ
      have hh : h = hash (vlabel node i) := resolveCollision_fresh _ _ _ _ _ hf hrc
      subst hh
      replace happ : addVirtualNodes hash node fuel rest
          (dset ring (hash (vlabel node i)) node) = some res := happ
      rw [dset_append_of_fresh _ _ _ hf] at happ
      have hnd2 := List.nodup_cons.mp hnd
      have hres := ih (ring ++ [(hash (vlabel node i), node)]) fuel res ?_ hnd2.2 happ
      · rw [hres, List.append_assoc]
        simp
      · intro j hj
        simp only [List.map_append, List.mem_append, List.map_cons, List.map_nil]
        intro hcon
        rcases hcon with hcon | hcon
        · exact hfresh j (List.mem_cons_of_mem _ hj) hcon
        · simp at hcon
          apply hnd2.1
          show hash (vlabel node i) ∈ List.map (fun i => hash (vlabel node i)) rest
          rw [← hcon]
          exact List.mem_map_of_mem (fun i => hash (vlabel node i)) hj

theorem ringEntries_cons (hash : String → Nat) (v : Nat) (n : String)
    (ns : List String) :
    ringEntries hash v (n :: ns)
      = (labelsOf v n).map (fun l => (hash l, n)) ++ ringEntries hash v ns := by
  simp [ringEntries]

theorem ringEntries_append (hash : String → Nat) (v : Nat) (l1 l2 : List String) :
    ringEntries hash v (l1 ++ l2) = ringEntries hash v l1 ++ ringEntries hash v l2 := by
  simp [ringEntries]

theorem ringEntries_keys (hash : String → Nat) (v : Nat) (ns : List String) :
    (ringEntries hash v ns).map Prod.fst = (ns.flatMap (labelsOf v)).map hash := by
  simp only [ringEntries, List.map_flatMap, List.map_map]
  rfl

theorem ringEntries_length (hash : String → Nat) (v : Nat) (ns : List String) :
    (ringEntries hash v ns).length = v * ns.length := by
  induction ns with
  | nil => simp [ringEntries]
  | cons n t ih =>
    rw [ringEntries_cons]
    simp only [List.length_append, List.length_map, ih, labelsOf, List.length_range,
      List.length_cons]
    ring

/-- Restriction of label-hash collision-freedom from the universe to
any duplicate-free subset of it. -/
theorem HInj.restrict (hash : String → Nat) (V : Nat) (U ns : List String)
    (hinj : HInj hash V U) (hsub : ns ⊆ U) (hnd : ns.Nodup) :
    ((ns.flatMap (labelsOf V)).map hash).Nodup := by
  unfold HInj at hinj
  rw [List.map_flatMap] at hinj ⊢
  obtain ⟨hall, hpw⟩ := List.nodup_flatMap.mp hinj
  refine List.nodup_flatMap.mpr ⟨fun n hn => hall n (hsub hn), ?_⟩
  obtain ⟨l2, hperm, hsubl⟩ := List.subperm_of_subset hnd hsub
  have h2 := hpw.sublist hsubl
  exact (List.Perm.pairwise_iff (fun hd => List.Disjoint.symm hd) hperm).mp h2

/-- The label hashes of a node outside a present set are fresh for
the entries of that set. -/
theorem hinj_fresh (hash : String → Nat) (V : Nat) (U ns : List String)
    (hinj : HInj hash V U) (hsub : ns ⊆ U) (hnd : ns.Nodup)
    (n : String) (hn : n ∈ U) (hnotin : n ∉ ns) :
    ∀ l ∈ labelsOf V n, hash l ∉ (ns.flatMap (labelsOf V)).map hash := by
  have hnd2 : (n :: ns).Nodup := List.nodup_cons.mpr ⟨hnotin, hnd⟩
  have hsub2 : (n :: ns) ⊆ U := by
    intro a ha
    rcases List.mem_cons.mp ha with h | h
    · exact h ▸ hn
    · exact hsub h
  have h := HInj.restrict hash V U (n :: ns) hinj hsub2 hnd2
  rw [List.flatMap_cons, List.map_append] at h
  have h3 := (List.nodup_append.mp h).2.2
  intro l hl hcon
  exact h3 (List.mem_map_of_mem hash hl) hcon

/-- The effect of add_node under collision-freedom: the
characterization of the ring state is preserved. -/
theorem addNodeCore_spec (hash : String → Nat) (V : Nat) (U : List String)
    (r : ConsistentHash) (node : String) (fuel : Nat) (res : ConsistentHash)
    (hchar : RingChar hash V U r) (hinj : HInj hash V U) (hmem : node ∈ U)
    (happ : addNodeCore hash r node fuel = some res) :
    RingChar hash V U res := by
  obtain ⟨hV, hnd, hsub, hring⟩ := hchar
  unfold addNodeCore at happ
  by_cases hin : r.nodes.contains node
  · rw [if_pos hin] at happ
    injection happ with h
    subst h
    exact ⟨hV, hnd, hsub, hring⟩
  · rw [if_neg hin] at happ
    have hnotin : node ∉ r.nodes := by simpa using hin
    rcases hav : addVirtualNodes hash node fuel (List.range r.virtual_nodes)
        r.hash_ring with _ | ring2
    · rw [hav] at happ
      cases happ
    · rw [hav] at happ
      injection happ with h
      subst h
      have hlab : ((labelsOf V node).map hash).Nodup := by
        have := HInj.restrict hash V U [node] hinj
          (by intro a ha; rw [List.mem_singleton.mp ha]; exact hmem)
          (List.nodup_singleton node)
        simpa using this
      have hfresh : ∀ i ∈ List.range r.virtual_nodes,
          hash (vlabel node i) ∉ r.hash_ring.map Prod.fst := by
        intro i hi
        rw [hV] at hi
        rw [hring, ringEntries_keys]
        refine hinj_fresh hash V U r.nodes hinj hsub hnd node hmem hnotin _ ?_
        exact List.mem_map_of_mem (vlabel node) hi
      have hnd3 : ((List.range r.virtual_nodes).map
          (fun i => hash (vlabel node i))).Nodup := by
        have : (List.range r.virtual_nodes).map (fun i => hash (vlabel node i))
            = (labelsOf r.virtual_nodes node).map hash := by
          simp [labelsOf, List.map_map, Function.comp]
        rw [this, hV]
        exact hlab
      have hres := addVirtualNodes_spec hash node (List.range r.virtual_nodes)
        r.hash_ring fuel ring2 hfresh hnd3 hav
      refine ⟨hV, ?_, ?_, ?_⟩
      · rw [List.nodup_append]
        refine ⟨hnd, List.nodup_singleton _, ?_⟩
        intro a ha hb
        rw [List.mem_singleton.mp hb] at ha
        exact hnotin ha
      · intro a ha
        rcases List.mem_append.mp ha with h | h
        · exact hsub h
        · rw [List.mem_singleton.mp h]
          exact hmem
      · show ring2 = ringEntries hash V (r.nodes ++ [node])
        rw [hres, hring, ringEntries_append]
        congr 1
        rw [hV]
        simp only [ringEntries, List.flatMap_cons, List.flatMap_nil, List.append_nil,
          labelsOf, List.map_map]
        rfl

/-- Iterated dict pops are one filter by non-membership of the key. -/
theorem foldl_dpop_eq_filter (ks : List Nat) :
    ∀ (l : List (Nat × String)),
    ks.foldl (fun rg k => dpop rg k) l
      = l.filter (fun p => decide (p.1 ∉ ks)) := by
  induction ks with
  | nil =>
    intro l
    simp
  | cons k rest ih =>
    intro l
    simp only [List.foldl_cons]
    rw [ih (dpop l k), dpop, List.filter_filter]
    apply List.filter_congr
    intro p hp
    by_cases h1 : p.1 = k <;> by_cases h2 : p.1 ∈ rest <;> simp [h1, h2]

/-- Pairwise distinctness of the universe label hashes separates the
labels of any two distinct universe nodes. -/
theorem hinj_disjoint (hash : String → Nat) (V : Nat) (U : List String)
    (hinj : HInj hash V U) (a b : String) (ha : a ∈ U) (hb : b ∈ U)
    (hab : a ≠ b) :
    ∀ l ∈ labelsOf V a, hash l ∉ (labelsOf V b).map hash := by
  unfold HInj at hinj
  rw [List.map_flatMap] at hinj
  obtain ⟨hall, hpw⟩ := List.nodup_flatMap.mp hinj
  have hdisj := List.Pairwise.forall
    (R := List.Disjoint on fun n => (labelsOf V n).map hash)
    (by intro x y hd; exact List.Disjoint.symm hd) hpw ha hb hab
  intro l hl hcon
  exact hdisj (List.mem_map_of_mem hash hl) hcon

/-- Filtering the label keys of one node out of the ring entries of a
duplicate-free node list leaves exactly the entries of the other
nodes. -/
theorem ringEntries_filter_erase (hash : String → Nat) (V : Nat) :
    ∀ (nodes : List String) (node : String), nodes.Nodup →
    (∀ m ∈ nodes, m ≠ node →
      ∀ l ∈ labelsOf V m, hash l ∉ (labelsOf V node).map hash) →
    (ringEntries hash V nodes).filter
        (fun p => decide (p.1 ∉ (labelsOf V node).map hash))
      = ringEntries hash V (nodes.erase node) := by
  intro nodes
  induction nodes with
  | nil =>
    intro node _ _
    rfl
  | cons m rest ih =>
    intro node hnd hdisj
    have hnd2 := List.nodup_cons.mp hnd
    rw [ringEntries_cons, List.filter_append]
    by_cases hm : m = node
    · subst hm
      rw [List.erase_cons_head]
      have h1 : ((labelsOf V m).map (fun l => (hash l, m))).filter
          (fun p => decide (p.1 ∉ (labelsOf V m).map hash)) = [] := by
        rw [List.filter_eq_nil_iff]
        intro a ha
        obtain ⟨l, hl, rfl⟩ := List.mem_map.mp ha
        simp only [decide_eq_true_eq]
        exact not_not_intro (List.mem_map_of_mem hash hl)
      have h2 : (ringEntries hash V rest).filter
          (fun p => decide (p.1 ∉ (labelsOf V m).map hash))
          = ringEntries hash V rest := by
        rw [List.filter_eq_self]
        intro a ha
        simp only [ringEntries, List.mem_flatMap, List.mem_map] at ha
        obtain ⟨m2, hm2, l2, hl2, rfl⟩ := ha
        simp only [decide_eq_true_eq]
        have hne : m2 ≠ m := by
          intro hcon
          exact hnd2.1 (hcon ▸ hm2)
        exact hdisj m2 (List.mem_cons_of_mem _ hm2) hne l2 hl2
      rw [h1, h2]
      simp
    · rw [List.erase_cons_tail]
      · rw [ringEntries_cons]
        congr 1
        · rw [List.filter_eq_self]
          intro a ha
          obtain ⟨l, hl, rfl⟩ := List.mem_map.mp ha
          simp only [decide_eq_true_eq]
          exact hdisj m (List.mem_cons_self _ _) hm l hl
        · exact ih node hnd2.2
            (fun m2 hm2 hne => hdisj m2 (List.mem_cons_of_mem _ hm2) hne)
      · simp [hm]

/-- The effect of remove_node under collision-freedom: the
characterization of the ring state is preserved. -/
theorem removeNodeCore_spec (hash : String → Nat) (V : Nat) (U : List String)
    (r : ConsistentHash) (node : String) (res : ConsistentHash)
    (hchar : RingChar hash V U r) (hinj : HInj hash V U)
    (hrem : removeNodeCore hash r node = .ok res) : RingChar hash V U res := by
  obtain ⟨hV, hnd, hsub, hring⟩ := hchar
  unfold removeNodeCore at hrem
  by_cases hin : r.nodes.contains node
  · rw [if_pos hin] at hrem
    injection hrem with h
    subst h
    have hmemnode : node ∈ r.nodes := by simpa using hin
    refine ⟨hV, List.Nodup.erase node hnd, ?_, ?_⟩
    · intro a ha
      exact hsub (List.mem_of_mem_erase ha)
    · show (((labelsOf r.virtual_nodes node).map hash).foldl
          (fun rg k => dpop rg k) r.hash_ring)
        = ringEntries hash V (r.nodes.erase node)
      rw [foldl_dpop_eq_filter, hring, hV]
      exact ringEntries_filter_erase hash V r.nodes node hnd
        (fun m hm hne => hinj_disjoint hash V U hinj m node (hsub hm)
          (hsub hmemnode) hne)
  · rw [if_neg hin] at hrem
    cases hrem

/-- Every trace of ring operations that completes preserves the ring
characterization. -/
theorem applyOps_char (hash : String → Nat) (V fuel : Nat) (U : List String) :
    ∀ (ops : List RingOp) (r res : ConsistentHash),
    RingChar hash V U r → HInj hash V U →
    (∀ op ∈ ops, opNode op ∈ U) →
    applyOps hash fuel r ops = some res → RingChar hash V U res := by
  intro ops
  induction ops with
  | nil =>
    intro r res hchar _ _ happ
    injection happ with h
    subst h
    exact hchar
  | cons op rest ih =>
    intro r res hchar hinj hops happ
    cases op with
    | add n =>
      unfold applyOps at happ
      rcases ha : addNodeCore hash r n fuel with _ | r2
      · rw [ha] at happ
        cases happ
      · rw [ha] at happ
        replace happ : applyOps hash fuel r2 rest = some res := happ
        exact ih r2 res
          (addNodeCore_spec hash V U r n fuel r2 ⟨hchar.1, hchar.2.1, hchar.2.2.1,
            hchar.2.2.2⟩ hinj (hops (.add n) (List.mem_cons_self _ _)) ha)
          hinj (fun op hop => hops op (List.mem_cons_of_mem _ hop)) happ
    | remove n =>
      unfold applyOps at happ
      rcases ha : removeNodeCore hash r n with e | r2
      · rw [ha] at happ
        cases happ
      · rw [ha] at happ
        replace happ : applyOps hash fuel r2 rest = some res := happ
        exact ih r2 res
          (removeNodeCore_spec hash V U r n r2 ⟨hchar.1, hchar.2.1, hchar.2.2.1,
            hchar.2.2.2⟩ hinj ha)
          hinj (fun op hop => hops op (List.mem_cons_of_mem _ hop)) happ

/-- The three invariant conclusions follow from the characterization
together with label-hash collision-freedom. -/
theorem ringChar_invariant (hash : String → Nat) (V : Nat) (U : List String)
    (r : ConsistentHash) (hchar : RingChar hash V U r) (hinj : HInj hash V U) :
    r.hash_ring.length = V * r.nodes.length ∧
    (r.hash_ring.map Prod.fst).Nodup ∧
    ∀ p ∈ r.hash_ring, p.2 ∈ r.nodes := by
  obtain ⟨hV, hnd, hsub, hring⟩ := hchar
  refine ⟨?_, ?_, ?_⟩
  · rw [hring, ringEntries_length]
  · rw [hring, ringEntries_keys]
    exact HInj.restrict hash V U r.nodes hinj hsub hnd
  · intro p hp
    rw [hring] at hp
    simp only [ringEntries, List.mem_flatMap, List.mem_map] at hp
    obtain ⟨n, hn, l, hl, rfl⟩ := hp
    exact hn

/-- C3 amended: the ring invariant holds for every operation trace
(removes only on present shards, adds within the collision fuel)
provided the hashes of the virtual-node labels of the shards involved
are pairwise distinct, so no collision-rehash occurs: the ring then
holds exactly V unique entries per present shard, each mapping to a
present shard. -/
theorem c3_amended_ring_invariant (hash : String → Nat) (V fuel : Nat)
    (ops : List RingOp) (res : ConsistentHash)
    (hinj : HInj hash V ((ops.map opNode).dedup))
    (happ : applyOps hash fuel (emptyRingState V) ops = some res) :
    res.hash_ring.length = V * res.nodes.length ∧
    (res.hash_ring.map Prod.fst).Nodup ∧
    ∀ p ∈ res.hash_ring, p.2 ∈ res.nodes := by
  have hchar0 : RingChar hash V ((ops.map opNode).dedup) (emptyRingState V) :=
    ⟨rfl, List.nodup_nil, List.nil_subset _, rfl⟩
  have hops : ∀ op ∈ ops, opNode op ∈ (ops.map opNode).dedup := fun op hop =>
    List.mem_dedup.mpr (List.mem_map_of_mem opNode hop)
  have hchar := applyOps_char hash V fuel _ ops _ res hchar0 hinj hops happ
  exact ringChar_invariant hash V _ res hchar hinj

/-- Witness for C3: the MD5 ring after adding both shards and removing
the second one holds exactly one entry per present shard, unique, and
mapping to the present shard. -/
theorem c3_amended_ring_invariant_witness :
    ringAfterTrace.hash_ring.length = 1 * ringAfterTrace.nodes.length ∧
    (ringAfterTrace.hash_ring.map Prod.fst).Nodup ∧
    ∀ p ∈ ringAfterTrace.hash_ring, p.2 ∈ ringAfterTrace.nodes :=
  c3_amended_ring_invariant md5Hash 1 5
    [.add nodeA, .add nodeB, .remove nodeB] ringAfterTrace
    (by unfold HInj; decide) (by decide)

end VisitCounter
